import Mathlib
/-!
# Verification of the realtime-examples session adapters

A shallow embedding, in Lean 4, of the pure control-plane logic of the
per-session adapters (TTS, STT, Video) of this repository, together with
theorems settling the specification's claims about them.

Conventions of the embedding:
* byte buffers (`ArrayBuffer` / `Uint8Array`) are `List Nat` of byte values;
* PCM16 sample buffers (`Int16Array` views) are `List Int` of sample values;
* JavaScript `undefined` / deleted object fields are `Option.none`;
* `Date.now()` instants are explicit `now` parameters;
* each stateful handler becomes a pure function from its pre-state (plus the
  outcomes of its external calls, passed as parameters) to its post-state and
  observable outputs.
-/

/-! ## StateStore and alarm rescheduling
Model of `createStateStore` (shared/state-store.ts) and
`buildDeadlineAggregator` (shared/do-utils.ts).  The deadline fields of an
adapter state are listed in the aggregator's key order; a field holds `none`
when it is undefined, deleted, or was assigned `undefined` (in all three
cases `typeof value === 'number'` is false). -/

namespace StateStoreM

/-- A state store together with the alarm slot of the underlying durable
storage.  `fields` are the deadline-field values in aggregator key order. -/
structure Store where
  fields : List (Option Int)
  alarm : Option Int
deriving DecidableEq

/-- `buildDeadlineAggregator` (do-utils): collect the values of the deadline
keys for which `typeof value === 'number'` holds. -/
def buildDeadlineAggregator (state : List (Option Int)) : List Int :=
  state.filterMap id

/-- `rescheduleAlarm` (state-store): keep the deadlines that are `> 0`;
if any remain, `setAlarm(Math.min(...validDeadlines))`, else `deleteAlarm()`.
`Math.min` over a spread argument list is a fold of the binary minimum. -/
def rescheduleAlarm (st : Store) : Store :=
  let deadlines := buildDeadlineAggregator st.fields
  let validDeadlines := deadlines.filter (fun d => 0 < d)
  match validDeadlines with
  | [] => { st with alarm := none }
  | d :: ds => { st with alarm := some (ds.foldl min d) }

/-- `Object.assign(store.state, updates)` restricted to the deadline fields:
an entry `some v` assigns the field (possibly to `undefined` = `some none`),
an entry `none` leaves the field alone. -/
def mergeFields : List (Option Int) → List (Option (Option Int)) → List (Option Int)
  | fs, [] => fs
  | [], _ => []
  | f :: fs, u :: us => u.getD f :: mergeFields fs us

/-- Field effect of `deleteKeys`: a `true` entry deletes that field. -/
def deleteKeysFields : List (Option Int) → List Bool → List (Option Int)
  | fs, [] => fs
  | [], _ => []
  | f :: fs, k :: ks => (if k then none else f) :: deleteKeysFields fs ks

/-- `update(updates, skipAlarmReschedule)` (state-store): merge, persist,
and unless suppressed recompute the alarm. -/
def update (st : Store) (updates : List (Option (Option Int))) (skipAlarmReschedule : Bool) : Store :=
  let st1 : Store := { st with fields := mergeFields st.fields updates }
  if skipAlarmReschedule then st1 else rescheduleAlarm st1

/-- `deleteKeys(keys, skipAlarmReschedule)` (state-store). -/
def deleteKeys (st : Store) (keys : List Bool) (skipAlarmReschedule : Bool) : Store :=
  let st1 : Store := { st with fields := deleteKeysFields st.fields keys }
  if skipAlarmReschedule then st1 else rescheduleAlarm st1

/-- The specification's description of the alarm: the minimum of the deadline
fields that are defined and positive, absent when there are none. -/
def minDefinedPositive (fields : List (Option Int)) : Option Int :=
  ((fields.filterMap id).filter (fun d => 0 < d)).min?

end StateStoreM

/-! ## Reconnect backoff
Model of `scheduleReconnect` (shared/do-utils.ts). -/

namespace Reconnect

/-- The reconnection-related fields of an adapter state. -/
structure ReconnectState where
  allowReconnect : Bool
  reconnectAttempts : Nat
  reconnectType : Option String
  reconnectDeadline : Option Nat
deriving DecidableEq

/-- `scheduleReconnect(stateStore, options)` (do-utils), with `now` passed
explicitly.  `maxAttempts` defaults to 5 and `maxDelayMs` to 30000 at the
call sites modelled here. -/
def scheduleReconnect (s : ReconnectState) (now : Nat) (ty : String)
    (maxAttempts maxDelayMs : Nat) : ReconnectState :=
  if !s.allowReconnect then s
  else
    let currentAttempts := s.reconnectAttempts
    let newAttempts := currentAttempts + 1
    if newAttempts > maxAttempts then s
    else
      let delay := min (1000 * 2 ^ (newAttempts - 1)) maxDelayMs
      let target := now + delay
      let deadline :=
        match s.reconnectDeadline with
        | none => some target
        | some current => if current > target + 250 then some target else some current
      { s with
          reconnectAttempts := newAttempts
          reconnectType := some ty
          reconnectDeadline := deadline }

end Reconnect

/-! ## STT send queue: enqueue with drop-oldest overflow
Model of `enqueueAudioForSTT` (STT adapter) with the constants of
shared/config.ts. -/

namespace STTQueue

def STT_MAX_QUEUE_BYTES : Nat := 2 * 1024 * 1024

def STT_MIN_BATCH_BYTES : Nat := 3200

def STT_MAX_BATCH_BYTES : Nat := 16000

/-- Sum of the byte lengths of the queued buffers. -/
def sumBytes (queue : List (List Nat)) : Nat :=
  (queue.map List.length).sum

/-- The queue fields of the STT adapter. -/
structure Queue where
  sttSendQueue : List (List Nat)
  sttQueuedBytes : Nat
deriving DecidableEq

/-- The overflow loop of `enqueueAudioForSTT`: while the byte counter exceeds
the cap and the queue is nonempty, shift the head off and subtract its
length. -/
def dropOldest : List (List Nat) → Nat → List (List Nat) × Nat
  | [], bytes => ([], bytes)
  | dropped :: rest, bytes =>
    if bytes > STT_MAX_QUEUE_BYTES then dropOldest rest (bytes - dropped.length)
    else (dropped :: rest, bytes)

/-- `enqueueAudioForSTT(audioData)`: ignore empty buffers, push at the tail,
add the length to the counter, then resolve overflow by dropping from the
head. -/
def enqueueAudioForSTT (q : Queue) (audioData : List Nat) : Queue :=
  if audioData.length = 0 then q
  else
    let queue1 := q.sttSendQueue ++ [audioData]
    let bytes1 := q.sttQueuedBytes + audioData.length
    let r := dropOldest queue1 bytes1
    ⟨r.1, r.2⟩

end STTQueue

/-! ## Inactivity scheduling
Models of the two inactivity schedulers: the TTS adapter's
`scheduleInactivity` (tts-adapter.ts) and the STT adapter's
`scheduleInactivityIfIdle` (stt adapter).  Each function returns the new
value of the `inactivityDeadline` field. -/

namespace Inactivity

def DEFAULT_INACTIVITY_TIMEOUT_MS : Int := 10 * 60 * 1000

def STT_DEBUG_GRACE_MS : Int := 30 * 1000

/-- TTS `scheduleInactivity(reason, ms)`: take the max with any existing
deadline (never shorten), and skip the write when the change is under the
1 s churn guard. -/
def ttsScheduleInactivity (inactivityDeadline : Option Int) (now ms : Int) : Option Int :=
  let newDeadline := now + ms
  match inactivityDeadline with
  | none => some newDeadline
  | some existing =>
      let desired := max existing newDeadline
      if (desired - existing).natAbs < 1000 then some existing
      else some desired

/-- STT `scheduleInactivityIfIdle(reason, graceMs)`: no-op when any client is
connected; otherwise keep an existing deadline that is earlier than (or
within 250 ms of) the new target, and overwrite it with the target when the
target is more than 250 ms earlier. -/
def sttScheduleInactivityIfIdle (anyoneHere : Bool) (inactivityDeadline : Option Int)
    (now graceMs : Int) : Option Int :=
  if anyoneHere then inactivityDeadline
  else
    let desired := now + graceMs
    match inactivityDeadline with
    | some existing => if existing ≤ desired + 250 then some existing else some desired
    | none => some desired

end Inactivity

/-! ## PCM16 audio transforms
Models of the `AudioProcessor` static methods (web/ui audio utilities):
`stereoToMono`, `monoToStereo`, `resample24kHzTo48kHz`.  A buffer is the list
of its `Int16Array` sample values.  `Int16Array` element assignment wraps the
assigned integer into the signed 16-bit range; `Math.round` of a half-integer
`(a+b)/2` is `⌊(a+b+1)/2⌋`, which for the positive divisor 2 is Lean's `Int`
division. -/

namespace Audio

/-- Wrap an integer into the signed 16-bit range, as `Int16Array` element
assignment does. -/
def toInt16 (v : Int) : Int := (v + 32768) % 65536 - 32768

/-- `Math.round((a + b) / 2)` for integers `a`, `b`: round half toward
positive infinity. -/
def jsAverageRound (a b : Int) : Int := (a + b + 1) / 2

/-- `AudioProcessor.stereoToMono`: average each left/right sample pair with
rounding; a trailing unpaired sample is dropped (mono length is
`floor(len / 2)`). -/
def stereoToMono : List Int → List Int
  | l :: r :: rest => toInt16 (jsAverageRound l r) :: stereoToMono rest
  | _ => []

/-- `AudioProcessor.monoToStereo`: duplicate each sample into both
channels. -/
def monoToStereo : List Int → List Int
  | [] => []
  | s :: rest => toInt16 s :: toInt16 s :: monoToStereo rest

/-- `AudioProcessor.resample24kHzTo48kHz`: for each consecutive pair emit the
first sample and the rounded midpoint; the terminal sample is emitted
twice. -/
def resample24kHzTo48kHz : List Int → List Int
  | [] => []
  | [s] => [toInt16 s, toInt16 s]
  | s1 :: s2 :: rest =>
      toInt16 s1 :: toInt16 (jsAverageRound s1 s2) :: resample24kHzTo48kHz (s2 :: rest)

/-- `AudioProcessor.processForTTS` and the adapter's scalar fallback
`resample24kToStereo48k`: mono 24 kHz to stereo 48 kHz. -/
def processForTTS (mono24kHz : List Int) : List Int :=
  monoToStereo (resample24kHzTo48kHz mono24kHz)

end Audio

/-! ## STT drain loop
Model of `ensureSTTDrain` (STT adapter).  One invocation of the drain is a
pure function from the queue/flag state to the list of messages sent on the
upstream WebSocket and the post-state.  The loop's batch counter and the
10 ms time-slice check both cut the loop off after finitely many batches;
they are modelled together by a `budget` parameter (the real executions use
`budget ≤ 8`).  `upstreamOpen` is the `readyState === OPEN` status of the
socket returned by `getOrCreateNovaSTTConnection`, held fixed over the
invocation. -/

namespace STTDrain

open STTQueue

/-- A message sent to the upstream STT WebSocket. -/
inductive NovaMsg where
  | audio (bytes : List Nat)
  | finalize
  | closeStream
deriving DecidableEq

/-- The in-memory queue together with the persisted control flags read by the
drain. -/
structure DrainState where
  sttSendQueue : List (List Nat)
  sttQueuedBytes : Nat
  pendingFinalize : Bool
  pendingClose : Bool
deriving DecidableEq

/-- The batch-coalescing inner loop: peek the head; stop when adding it would
exceed `STT_MAX_BATCH_BYTES` and the batch already has data; otherwise pop it
into the batch.  Returns the popped pieces and the remaining queue. -/
def takeBatch : List (List Nat) → Nat → List (List Nat) × List (List Nat)
  | [], _ => ([], [])
  | next :: rest, batchBytes =>
    if batchBytes < STT_MAX_BATCH_BYTES then
      if batchBytes + next.length > STT_MAX_BATCH_BYTES ∧ 0 < batchBytes then
        ([], next :: rest)
      else
        let r := takeBatch rest (batchBytes + next.length)
        (next :: r.1, r.2)
    else ([], next :: rest)

/-- The loop condition of `ensureSTTDrain`. -/
def drainCond (s : DrainState) : Prop :=
  s.sttQueuedBytes ≥ STT_MIN_BATCH_BYTES ∨
    ((s.pendingClose ∨ s.pendingFinalize) ∧ s.sttQueuedBytes > 0)

instance (s : DrainState) : Decidable (drainCond s) := by
  unfold drainCond; infer_instance

/-- The outer drain loop: while the loop condition holds and the upstream is
open, pop one coalesced batch, send it as a single binary frame (pieces of a
multi-piece batch are concatenated), and repeat until the `budget` of batch
turns is spent. -/
def drainLoop (upstreamOpen : Bool) : DrainState → Nat → List NovaMsg × DrainState
  | s, 0 => ([], s)
  | s, budget + 1 =>
    if drainCond s then
      if upstreamOpen then
        let b := takeBatch s.sttSendQueue 0
        let batchBytes := sumBytes b.1
        let s1 : DrainState :=
          { s with sttSendQueue := b.2, sttQueuedBytes := s.sttQueuedBytes - batchBytes }
        let sent : List NovaMsg := if batchBytes > 0 then [NovaMsg.audio b.1.flatten] else []
        let r := drainLoop upstreamOpen s1 budget
        (sent ++ r.1, r.2)
      else ([], s)
    else ([], s)

/-- `ensureSTTDrain`: run the loop, then, exactly when the queued byte counter
is zero and the upstream is open, send a single pending control message
(`Finalize` first, else `CloseStream`) and clear its flag. -/
def ensureSTTDrain (upstreamOpen : Bool) (s : DrainState) (budget : Nat) :
    List NovaMsg × DrainState :=
  let r := drainLoop upstreamOpen s budget
  let s1 := r.2
  if s1.sttQueuedBytes = 0 then
    if upstreamOpen then
      if s1.pendingFinalize then
        (r.1 ++ [NovaMsg.finalize], { s1 with pendingFinalize := false })
      else if s1.pendingClose then
        (r.1 ++ [NovaMsg.closeStream], { s1 with pendingClose := false })
      else r
    else r
  else r

/-- Well-formedness of the drain state: the byte counter is the sum of the
queued buffer lengths (maintained by `enqueueAudioForSTT`, see the queue
section), and no queued buffer is empty (`enqueueAudioForSTT` rejects
zero-length buffers). -/
def DrainWF (s : DrainState) : Prop :=
  s.sttQueuedBytes = sumBytes s.sttSendQueue ∧ ∀ b ∈ s.sttSendQueue, b ≠ []

instance (s : DrainState) : Decidable (DrainWF s) := by
  unfold DrainWF; infer_instance

/-- The audio payloads of a message trace, in order. -/
def audioPayloads (msgs : List NovaMsg) : List (List Nat) :=
  msgs.filterMap (fun m => match m with
    | NovaMsg.audio bs => some bs
    | _ => none)

end STTDrain

/-! ## SFU packet codec
Models of `encodePcmForSfu` and `extractPcmFromSfuPacket`
(shared/sfu-utils.ts).

Modelled from the spec: the generated protobuf code for the `Packet` message
(`src/packet.ts`, produced by protobuf-ts from `packet.proto`) is not part of
the provided sources; its binary format is modelled here from the proto3
schema documented in the repository (message `Packet`: `uint32
sequenceNumber = 1`, `uint32 timestamp = 2`, `bytes payload = 5`) and the
standard proto3 wire format: little-endian base-128 varints, tag =
`fieldNumber * 8 + wireType`, singular scalar fields omitted when they hold
the default value, and a length-prefixed byte string for `bytes`.  Buffers
carry an allocation identifier `id` so that the decoder's fresh-copy
behaviour (`new Uint8Array(payloadView)`) is expressible: the returned
buffer's backing allocation is the fresh one, never the incoming frame. -/

namespace PacketCodec

/-- Little-endian base-128 varint encoding of a natural number. -/
def varintEncode (n : Nat) : List Nat :=
  if n < 128 then [n]
  else (n % 128 + 128) :: varintEncode (n / 128)
termination_by n
decreasing_by exact Nat.div_lt_self (by omega) (by omega)

/-- Varint decoding: returns the value and the unconsumed tail. -/
def varintDecode : List Nat → Option (Nat × List Nat)
  | [] => none
  | b :: rest =>
    if b < 128 then some (b % 128, rest)
    else
      match varintDecode rest with
      | some (n, rest2) => some (b % 128 + 128 * n, rest2)
      | none => none

/-- The in-memory form of a decoded `Packet` protobuf message.  After
`fromBinary` every field is populated (absent fields hold proto3 defaults:
zero and the empty byte string). -/
structure Packet where
  sequenceNumber : Nat
  timestamp : Nat
  payload : List Nat
deriving DecidableEq

/-- `Packet.toBinary`: serialize in field order, omitting fields that hold
their proto3 default. -/
def packetToBinary (p : Packet) : List Nat :=
  (if p.sequenceNumber ≠ 0 then 8 :: varintEncode p.sequenceNumber else [])
  ++ (if p.timestamp ≠ 0 then 16 :: varintEncode p.timestamp else [])
  ++ (if p.payload.length ≠ 0 then
        42 :: varintEncode p.payload.length ++ p.payload else [])

/-- The field-reading loop of `Packet.fromBinary`: read a tag varint,
dispatch on field number and wire type, and skip unknown fields. -/
def readFields : Packet → List Nat → Nat → Option Packet
  | p, [], _ => some p
  | _, _ :: _, 0 => none
  | p, bytes@(_ :: _), fuel + 1 =>
    match varintDecode bytes with
    | none => none
    | some (tag, rest) =>
      if tag / 8 = 1 ∧ tag % 8 = 0 then
        match varintDecode rest with
        | some (v, rest2) =>
            readFields { p with sequenceNumber := v % 2 ^ 32 } rest2 fuel
        | none => none
      else if tag / 8 = 2 ∧ tag % 8 = 0 then
        match varintDecode rest with
        | some (v, rest2) =>
            readFields { p with timestamp := v % 2 ^ 32 } rest2 fuel
        | none => none
      else if tag / 8 = 5 ∧ tag % 8 = 2 then
        match varintDecode rest with
        | some (len, rest2) =>
            if len ≤ rest2.length then
              readFields { p with payload := rest2.take len } (rest2.drop len) fuel
            else none
        | none => none
      else if tag % 8 = 0 then
        match varintDecode rest with
        | some (_, rest2) => readFields p rest2 fuel
        | none => none
      else if tag % 8 = 2 then
        match varintDecode rest with
        | some (len, rest2) =>
            if len ≤ rest2.length then readFields p (rest2.drop len) fuel else none
        | none => none
      else none

/-- `Packet.fromBinary`: parse the frame, starting from proto3 defaults. -/
def packetFromBinary (bytes : List Nat) : Option Packet :=
  readFields ⟨0, 0, []⟩ bytes bytes.length

/-- A JavaScript `ArrayBuffer`: the byte contents together with an
allocation identifier distinguishing distinct backing buffers. -/
structure JSBuf where
  id : Nat
  data : List Nat
deriving DecidableEq

/-- `encodePcmForSfu(payload)`: frame the payload in a `Packet` with
`sequenceNumber = 0` and `timestamp = 0`; the result is written into a
freshly allocated buffer. -/
def encodePcmForSfu (payload : List Nat) (freshId : Nat) : JSBuf :=
  ⟨freshId, packetToBinary ⟨0, 0, payload⟩⟩

/-- `extractPcmFromSfuPacket(packetData)`: decode the frame (any decoding
error yields `null`), truncate a terminal odd byte of the payload, and
return the payload copied into a freshly allocated buffer (`new
Uint8Array(payloadView)`), never a view into `packetData`.  The
`!packet.payload` null-check of the source is vacuous after `fromBinary`,
which always populates `payload` (with the empty byte string by default). -/
def extractPcmFromSfuPacket (frame : JSBuf) (freshId : Nat) : Option JSBuf :=
  match packetFromBinary frame.data with
  | none => none
  | some packet =>
    let payloadView := packet.payload
    let payloadEven :=
      if payloadView.length % 2 ≠ 0 then
        payloadView.take (payloadView.length - 1)
      else payloadView
    some ⟨freshId, payloadEven⟩

end PacketCodec

/-! ## TTS streaming, finalize, and the late-joiner buffer
Models of `streamChunkToClients`, `finalizeAudioStream` and
`sendBufferInChunks` (tts-adapter.ts), at PCM16 sample granularity.  The
scalar pipeline `processTTSUsingSpeexOrFallback` (24 kHz mono to 48 kHz
stereo) is `Audio.processForTTS`.  `TTS_BUFFER_CHUNK_SIZE` is 16 KiB of
bytes, i.e. 8192 samples.  Slicing is expressed with a structural fuel
parameter (one unit per slice; `length` units always suffice because each
slice consumes at least one sample). -/

namespace TTSStream

open Audio

def TTS_BUFFER_CHUNK_SAMPLES : Nat := 8192

/-- The `for (offset += CHUNK)` slicing loop, fuelled. -/
def sliceChunksFuel : Nat → List Int → List (List Int)
  | _, [] => []
  | 0, _ :: _ => []
  | fuel + 1, xs =>
      xs.take TTS_BUFFER_CHUNK_SAMPLES
        :: sliceChunksFuel fuel (xs.drop TTS_BUFFER_CHUNK_SAMPLES)

/-- Slice a buffer into successive payloads of at most
`TTS_BUFFER_CHUNK_SAMPLES` samples. -/
def sliceChunks (xs : List Int) : List (List Int) :=
  sliceChunksFuel xs.length xs

/-- `streamChunkToClients(audioChunk)`, per OPEN subscriber socket: empty
chunks are ignored; otherwise the processed chunk is sent in packet payloads
of at most one chunk size. -/
def streamChunkPayloads (audioChunk : List Int) : List (List Int) :=
  if audioChunk.length = 0 then []
  else sliceChunks (processForTTS audioChunk)

/-- All payloads streamed to an already-connected subscriber across a run of
binary upstream chunks. -/
def streamedPayloads (chunks : List (List Int)) : List (List Int) :=
  (chunks.map streamChunkPayloads).flatten

/-- The chunk-combining loop of `finalizeAudioStream` (sequential copy into
one buffer). -/
def combineChunks (chunks : List (List Int)) : List Int :=
  chunks.foldl (fun acc c => acc ++ c) []

/-- The retained late-joiner buffer set by `finalizeAudioStream`:
the combined raw chunks, processed as one buffer. -/
def lateJoinerBuffer (chunks : List (List Int)) : List Int :=
  processForTTS (combineChunks chunks)

/-- `sendBufferInChunks(ws)`: the retained buffer in slices, then a
zero-length payload as end-of-stream. -/
def sendBufferInChunks (buffer : List Int) : List (List Int) :=
  sliceChunks buffer ++ [[]]

end TTSStream

/-! ## STT transcription ring and late-joiner replay
Models of `broadcastTranscriptionResult` (ring-buffer maintenance) and
`handleTranscriptionStream` (replay to a newly accepted client).  The
transcription objects are opaque; entries are identified by the order in
which they were emitted. -/

namespace Transcripts

/-- The buffer-maintenance prefix of `broadcastTranscriptionResult`:
`if (buffer.length > 100) shift(); push(entry)`. -/
def broadcastPush (buffer : List Nat) (entry : Nat) : List Nat :=
  let b1 := if buffer.length > 100 then buffer.drop 1 else buffer
  b1 ++ [entry]

/-- The buffer after `n` transcriptions have been emitted, starting from the
empty buffer of a fresh session. -/
def broadcastIter (n : Nat) : List Nat :=
  (List.range n).foldl broadcastPush []

/-- `handleTranscriptionStream` replay on accept: the new client is sent the
buffered transcriptions, in order, exactly as stored. -/
def replayOnAccept (buffer : List Nat) : List Nat := buffer

end Transcripts

/-! ## Idempotence of unpublish / stop-forwarding
Models of TTS `handleUnpublish` (tts-adapter.ts) and STT
`handleStopForwarding` (stt adapter), plus a spec-modelled Video
`stop-forwarding`.  The SFU REST call `closeWebSocketAdapter` is passed in
as its observable outcome. -/

namespace CloseOps

open Inactivity

/-- Outcome of `SfuClient.closeWebSocketAdapter`: a 2xx, a 503 with
`adapter_not_found` (treated as already-closed success), or a failure with
the SFU's status. -/
inductive SfuCloseResult where
  | ok
  | alreadyClosed
  | fail (status : Nat)
deriving DecidableEq

/-- The TTS adapter state touched by `handleUnpublish` (persisted fields plus
the in-memory late-joiner buffer). -/
structure TTSState where
  allowReconnect : Bool
  reconnectAttempts : Nat
  reconnectType : Option String
  reconnectDeadline : Option Int
  inactivityDeadline : Option Int
  cleanupDeadline : Option Int
  sfuSessionId : Option String
  adapterId : Option String
  selectedSpeaker : Option String
  stereoAudioBuffer : Option (List Int)
deriving DecidableEq

/-- TTS `handleUnpublish`: 400 when no `adapterId` is stored; on SFU failure,
pass the SFU status through with no state change; otherwise (2xx or
`adapter_not_found`) clear the buffer, close the upstream link, disconnect
all clients (`disconnectAll`), and delete the publish-related keys. -/
def handleUnpublish (s : TTSState) (sfu : SfuCloseResult) : Nat × TTSState :=
  match s.adapterId with
  | none => (400, s)
  | some _ =>
    match sfu with
    | SfuCloseResult.fail status => (status, s)
    | _ =>
      (200,
        { s with
            stereoAudioBuffer := none
            allowReconnect := false
            reconnectAttempts := 0
            reconnectType := none
            reconnectDeadline := none
            inactivityDeadline := none
            sfuSessionId := none
            adapterId := none
            selectedSpeaker := none
            cleanupDeadline := none })

/-- The STT adapter state touched by `handleStopForwarding`. -/
structure STTState where
  sfuSessionId : Option String
  sfuAdapterId : Option String
  pendingFinalize : Bool
  pendingClose : Bool
  keepAliveDeadline : Option Int
  inactivityDeadline : Option Int
deriving DecidableEq

def STT_NOVA_KEEPALIVE_MS : Int := 5 * 1000

/-- STT `handleStopForwarding`: 200 no-op when no adapter is stored; 500 on
SFU failure with no state change; otherwise clear the adapter id, request a
`Finalize` (set the flag and nudge the drain), re-arm the pre-forwarding
KeepAlive when the upstream reconnect succeeds (`novaConnected`) and the
gating conditions hold, and schedule inactivity when nobody is connected. -/
def handleStopForwarding (s : STTState) (sfu : SfuCloseResult)
    (novaConnected anyoneHere : Bool) (now : Int) : Nat × STTState :=
  match s.sfuAdapterId with
  | none => (200, s)
  | some _ =>
    match sfu with
    | SfuCloseResult.fail _ => (500, s)
    | _ =>
      let s1 : STTState := { s with sfuAdapterId := none }
      let s2 : STTState := { s1 with pendingFinalize := true }
      let s3 : STTState :=
        if novaConnected ∧ s2.sfuSessionId.isSome ∧ s2.sfuAdapterId = none then
          { s2 with keepAliveDeadline := some (now + STT_NOVA_KEEPALIVE_MS) }
        else s2
      let s4 : STTState :=
        if !anyoneHere then
          { s3 with
              inactivityDeadline :=
                sttScheduleInactivityIfIdle anyoneHere s3.inactivityDeadline now
                  DEFAULT_INACTIVITY_TIMEOUT_MS }
        else s3
      (200, s4)

/-- The Video adapter state touched by `stop-forwarding`. -/
structure VideoState where
  sfuAdapterId : Option String
deriving DecidableEq

/-- Modelled from the spec: the Video adapter's `stop-forwarding` handler
(`video-adapter.ts` is not among the provided sources; the architecture
document and spec describe it as closing the SFU WebSocket adapter
idempotently — a no-op 200 when no adapter is stored, 500 on SFU failure,
otherwise clearing the stored adapter id and returning 200). -/
def videoStopForwarding (s : VideoState) (sfu : SfuCloseResult) : Nat × VideoState :=
  match s.sfuAdapterId with
  | none => (200, s)
  | some _ =>
    match sfu with
    | SfuCloseResult.fail _ => (500, s)
    | _ => (200, { s with sfuAdapterId := none })

end CloseOps

/-! ## Theorems
Proofs about the embedded definitions, per component. -/

namespace StateStoreM

theorem rescheduleAlarm_eq_minDefinedPositive (st : Store) :
    (rescheduleAlarm st).alarm = minDefinedPositive st.fields := by
  unfold rescheduleAlarm minDefinedPositive buildDeadlineAggregator
  cases h : (st.fields.filterMap id).filter (fun d => 0 < d) with
  | nil => simp [h]
  | cons d ds => simp only [h]; exact (List.min?_cons').symm

end StateStoreM

namespace STTQueue

theorem dropOldest_sum (queue : List (List Nat)) (bytes : Nat)
    (h : bytes = sumBytes queue) :
    (dropOldest queue bytes).2 = sumBytes (dropOldest queue bytes).1 := by
  induction queue generalizing bytes with
  | nil => simpa [dropOldest, sumBytes] using h
  | cons hd tl ih =>
    unfold dropOldest
    split
    · exact ih _ (by simp [sumBytes] at h ⊢; omega)
    · simpa using h

theorem dropOldest_le (queue : List (List Nat)) (bytes : Nat)
    (h : bytes = sumBytes queue) :
    (dropOldest queue bytes).2 ≤ STT_MAX_QUEUE_BYTES := by
  induction queue generalizing bytes with
  | nil =>
    simp [sumBytes] at h
    simp [dropOldest, h, STT_MAX_QUEUE_BYTES]
  | cons hd tl ih =>
    unfold dropOldest
    split
    · exact ih _ (by simp [sumBytes] at h ⊢; omega)
    · omega

theorem dropOldest_suffix (queue : List (List Nat)) (bytes : Nat) :
    ∃ k, (dropOldest queue bytes).1 = queue.drop k := by
  induction queue generalizing bytes with
  | nil => exact ⟨0, rfl⟩
  | cons hd tl ih =>
    unfold dropOldest
    split
    · obtain ⟨k, hk⟩ := ih (bytes - hd.length)
      exact ⟨k + 1, by simpa using hk⟩
    · exact ⟨0, rfl⟩

end STTQueue

namespace Audio

theorem toInt16_of_range {s : Int} (h1 : -32768 ≤ s) (h2 : s < 32768) :
    toInt16 s = s := by
  unfold toInt16
  omega

theorem jsAverageRound_self (s : Int) : jsAverageRound s s = s := by
  unfold jsAverageRound
  omega

end Audio

namespace STTDrain

open STTQueue

theorem takeBatch_append (queue : List (List Nat)) (batchBytes : Nat) :
    (takeBatch queue batchBytes).1 ++ (takeBatch queue batchBytes).2 = queue := by
  induction queue generalizing batchBytes with
  | nil => simp [takeBatch]
  | cons next rest ih =>
    unfold takeBatch
    split
    · split
      · simp
      · simpa using ih (batchBytes + next.length)
    · simp

theorem takeBatch_progress (next : List Nat) (rest : List (List Nat)) :
    (takeBatch (next :: rest) 0).1 ≠ [] := by
  unfold takeBatch
  have h0 : (0 : Nat) < STT_MAX_BATCH_BYTES := by decide
  simp [h0]

theorem sumBytes_append (a b : List (List Nat)) :
    sumBytes (a ++ b) = sumBytes a + sumBytes b := by
  simp [sumBytes]

theorem sumBytes_eq_zero {l : List (List Nat)} (h : sumBytes l = 0)
    (hne : ∀ b ∈ l, b ≠ []) : l = [] := by
  cases l with
  | nil => rfl
  | cons hd tl =>
    exfalso
    have hhd := hne hd (by simp)
    simp [sumBytes] at h
    exact hhd h.1

theorem drainLoop_spec (uo : Bool) (budget : Nat) (s : DrainState) (hwf : DrainWF s) :
    ∃ k,
      (drainLoop uo s budget).2.sttSendQueue = s.sttSendQueue.drop k
      ∧ DrainWF (drainLoop uo s budget).2
      ∧ (drainLoop uo s budget).2.pendingFinalize = s.pendingFinalize
      ∧ (drainLoop uo s budget).2.pendingClose = s.pendingClose
      ∧ (audioPayloads (drainLoop uo s budget).1).flatten = (s.sttSendQueue.take k).flatten
      ∧ ∀ m ∈ (drainLoop uo s budget).1, ∃ bs, m = NovaMsg.audio bs := by
  induction budget generalizing s with
  | zero =>
    refine ⟨0, ?_, ?_, ?_, ?_, ?_, ?_⟩ <;> simp [drainLoop, audioPayloads, hwf]
  | succ budget ih =>
    by_cases hc : drainCond s
    · by_cases ho : uo = true
      · subst ho
        have hsplit := takeBatch_append s.sttSendQueue 0
        set pieces := (takeBatch s.sttSendQueue 0).1 with hp
        set rest := (takeBatch s.sttSendQueue 0).2 with hr
        have hsum : s.sttQueuedBytes = sumBytes pieces + sumBytes rest := by
          rw [hwf.1, ← hsplit, sumBytes_append]
        have hrest_ne : ∀ b ∈ rest, b ≠ [] := by
          intro b hb
          exact hwf.2 b (by rw [← hsplit]; exact List.mem_append_right _ hb)
        have hwf1 : DrainWF ⟨rest, s.sttQueuedBytes - sumBytes pieces,
            s.pendingFinalize, s.pendingClose⟩ := by
          constructor
          · simp only
            omega
          · exact hrest_ne
        obtain ⟨k, hk1, hk2, hk3, hk4, hk5, hk6⟩ := ih _ hwf1
        have hstep : drainLoop true s (budget + 1) =
            ((if sumBytes pieces > 0 then [NovaMsg.audio pieces.flatten] else []) ++
              (drainLoop true ⟨rest, s.sttQueuedBytes - sumBytes pieces,
                s.pendingFinalize, s.pendingClose⟩ budget).1,
             (drainLoop true ⟨rest, s.sttQueuedBytes - sumBytes pieces,
                s.pendingFinalize, s.pendingClose⟩ budget).2) := by
          conv_lhs => rw [drainLoop]
          simp only [hc, if_true]
        by_cases hbb : sumBytes pieces > 0
        · refine ⟨pieces.length + k, ?_, ?_, ?_, ?_, ?_, ?_⟩
          · rw [hstep]; simp only
            rw [hk1, ← hsplit]
            simp [List.drop_append]
          · rw [hstep]; exact hk2
          · rw [hstep]; exact hk3
          · rw [hstep]; exact hk4
          · rw [hstep]; simp only [hbb, if_true, audioPayloads, List.filterMap_append]
            have : audioPayloads [NovaMsg.audio pieces.flatten] = [pieces.flatten] := rfl
            simp only [audioPayloads] at this ⊢
            rw [this]
            rw [← hsplit]
            simp [List.take_append]
            simpa [audioPayloads] using hk5
          · rw [hstep]
            intro m hm
            simp only [hbb, if_true, List.mem_append] at hm
            rcases hm with hm | hm
            · simp at hm; exact ⟨pieces.flatten, hm⟩
            · exact hk6 m hm
        · have hpieces : pieces = [] := by
            apply sumBytes_eq_zero (by omega)
            intro b hb
            exact hwf.2 b (by rw [← hsplit]; exact List.mem_append_left _ hb)
          have hq : rest = s.sttSendQueue := by rw [← hsplit, hpieces]; simp
          refine ⟨k, ?_, ?_, ?_, ?_, ?_, ?_⟩
          · rw [hstep]; simp only
            rw [hk1, hq]
          · rw [hstep]; exact hk2
          · rw [hstep]; exact hk3
          · rw [hstep]; exact hk4
          · rw [hstep]
            simp only [hbb, if_false, List.nil_append]
            rw [hk5, hq]
          · rw [hstep]
            intro m hm
            simp only [hbb, if_false, List.nil_append] at hm
            exact hk6 m hm
      · have ho' : uo = false := by simpa using ho
        subst ho'
        refine ⟨0, ?_, ?_, ?_, ?_, ?_, ?_⟩ <;> rw [drainLoop] <;>
          simp [hc, audioPayloads, hwf]
    · refine ⟨0, ?_, ?_, ?_, ?_, ?_, ?_⟩ <;> rw [drainLoop] <;>
        simp [hc, audioPayloads, hwf]

theorem audioPayloads_append_control (msgs : List NovaMsg) (c : NovaMsg)
    (hc : c = NovaMsg.finalize ∨ c = NovaMsg.closeStream) :
    audioPayloads (msgs ++ [c]) = audioPayloads msgs := by
  rcases hc with h | h <;> subst h <;> simp [audioPayloads]

theorem ensureSTTDrain_shape (uo : Bool) (s : DrainState) (budget : Nat) :
    (ensureSTTDrain uo s budget).1 = (drainLoop uo s budget).1
    ∨ ((ensureSTTDrain uo s budget).1
          = (drainLoop uo s budget).1 ++ [NovaMsg.finalize]
        ∧ (drainLoop uo s budget).2.sttQueuedBytes = 0)
    ∨ ((ensureSTTDrain uo s budget).1
          = (drainLoop uo s budget).1 ++ [NovaMsg.closeStream]
        ∧ (drainLoop uo s budget).2.sttQueuedBytes = 0) := by
  by_cases hz : (drainLoop uo s budget).2.sttQueuedBytes = 0
  · by_cases huo : uo = true
    · subst huo
      by_cases hpf : (drainLoop true s budget).2.pendingFinalize = true
      · exact Or.inr (Or.inl ⟨by simp [ensureSTTDrain, hz, hpf], hz⟩)
      · by_cases hpc : (drainLoop true s budget).2.pendingClose = true
        · exact Or.inr (Or.inr ⟨by simp [ensureSTTDrain, hz, hpf, hpc], hz⟩)
        · exact Or.inl (by simp [ensureSTTDrain, hz, hpf, hpc])
    · have huo' : uo = false := by simpa using huo
      subst huo'
      exact Or.inl (by simp [ensureSTTDrain, hz])
  · exact Or.inl (by simp [ensureSTTDrain, hz])

/-- C1: in every invocation of the STT send-queue drain, audio buffers are
sent in exactly the order they sit in the queue (the concatenated audio sent
is the concatenation of a prefix of the queue), and a `Finalize` or
`CloseStream` control message is sent only when the queued byte counter has
reached zero — that is, only after every queued audio buffer has been sent —
and only as the last message of the invocation. -/
theorem stt_drain_control_after_audio (uo : Bool) (s : DrainState) (budget : Nat)
    (hwf : DrainWF s) :
    (∃ k, (audioPayloads (ensureSTTDrain uo s budget).1).flatten
        = (s.sttSendQueue.take k).flatten)
  ∧ ((NovaMsg.finalize ∈ (ensureSTTDrain uo s budget).1 ∨
      NovaMsg.closeStream ∈ (ensureSTTDrain uo s budget).1) →
      (audioPayloads (ensureSTTDrain uo s budget).1).flatten
          = s.sttSendQueue.flatten
      ∧ ∃ pre c, (ensureSTTDrain uo s budget).1 = pre ++ [c]
          ∧ ∀ m ∈ pre, ∃ bs, m = NovaMsg.audio bs) := by
  obtain ⟨k, hk1, hk2, hk3, hk4, hk5, hk6⟩ := drainLoop_spec uo budget s hwf
  rcases ensureSTTDrain_shape uo s budget with hsh | ⟨hsh, hz⟩ | ⟨hsh, hz⟩
  · refine ⟨⟨k, by rw [hsh]; exact hk5⟩, ?_⟩
    intro hmem
    exfalso
    rw [hsh] at hmem
    rcases hmem with hmem | hmem
    · obtain ⟨bs, hbs⟩ := hk6 _ hmem
      exact absurd hbs (by simp)
    · obtain ⟨bs, hbs⟩ := hk6 _ hmem
      exact absurd hbs (by simp)
  all_goals {
    have hqnil : (drainLoop uo s budget).2.sttSendQueue = [] :=
      sumBytes_eq_zero (by rw [← hk2.1]; exact hz) hk2.2
    have htake : s.sttSendQueue.take k = s.sttSendQueue := by
      have hlen : s.sttSendQueue.length ≤ k := by
        have hdk := hk1.symm.trans hqnil
        have := congrArg List.length hdk
        simp at this
        omega
      simp [List.take_of_length_le hlen]
    have hpay : (audioPayloads (ensureSTTDrain uo s budget).1).flatten
        = s.sttSendQueue.flatten := by
      rw [hsh, audioPayloads_append_control _ _ (by simp), hk5, htake]
    exact ⟨⟨k, by rw [hpay, htake]⟩, fun _ => ⟨hpay, ⟨_, _, hsh, hk6⟩⟩⟩
  }

/-- C1 witness: a concrete drain run; one queued buffer and a pending
finalize, with the upstream open. -/
theorem stt_drain_control_after_audio_witness :
    DrainWF ⟨[[1, 2]], 2, true, false⟩
    ∧ ((∃ k, (audioPayloads (ensureSTTDrain true ⟨[[1, 2]], 2, true, false⟩ 1).1).flatten
          = (([[1, 2]] : List (List Nat)).take k).flatten)
      ∧ ((NovaMsg.finalize ∈ (ensureSTTDrain true ⟨[[1, 2]], 2, true, false⟩ 1).1 ∨
          NovaMsg.closeStream ∈ (ensureSTTDrain true ⟨[[1, 2]], 2, true, false⟩ 1).1) →
          (audioPayloads (ensureSTTDrain true ⟨[[1, 2]], 2, true, false⟩ 1).1).flatten
              = ([[1, 2]] : List (List Nat)).flatten
          ∧ ∃ pre c, (ensureSTTDrain true ⟨[[1, 2]], 2, true, false⟩ 1).1 = pre ++ [c]
              ∧ ∀ m ∈ pre, ∃ bs, m = NovaMsg.audio bs)) :=
  ⟨by decide, stt_drain_control_after_audio true ⟨[[1, 2]], 2, true, false⟩ 1 (by decide)⟩

end STTDrain

namespace PacketCodec

theorem varintDecode_encode (n : Nat) (tail : List Nat) :
    varintDecode (varintEncode n ++ tail) = some (n, tail) := by
  induction n using Nat.strong_induction_on with
  | _ n ih =>
    unfold varintEncode
    split
    · rename_i hlt
      simp [varintDecode, hlt, Nat.mod_eq_of_lt hlt]
    · rename_i hn
      have hrec := ih (n / 128) (Nat.div_lt_self (by omega) (by omega))
      have hge : ¬(n % 128 + 128 < 128) := by omega
      simp only [List.cons_append, varintDecode, hge, if_false]
      have hrec2 : varintDecode ((varintEncode (n / 128)).append tail)
          = some (n / 128, tail) := hrec
      rw [hrec2]
      simp
      omega

theorem readFields_payload_frame (p : Packet) (B : List Nat) :
    readFields p (42 :: (varintEncode B.length ++ B))
        ((varintEncode B.length ++ B).length + 1)
      = some { p with payload := B } := by
  rw [readFields]
  have h42 : varintDecode (42 :: (varintEncode B.length ++ B))
      = some (42, varintEncode B.length ++ B) := by
    simp [varintDecode]
  rw [h42]
  simp [varintDecode_encode]
  cases hB : B with
  | nil => simp [readFields]
  | cons b bs => rw [readFields]

/-- C3: for every byte buffer `B` of even length, decoding the SFU frame
produced by encoding `B` returns exactly `B`, and the returned buffer is
backed by the freshly allocated copy (`copyId`), never by the incoming
frame's allocation (`frameId`). -/
theorem extractPcm_encodePcm_roundtrip (B : List Nat) (frameId copyId : Nat)
    (hB : B.length % 2 = 0) :
    extractPcmFromSfuPacket ⟨frameId, (encodePcmForSfu B 0).data⟩ copyId
        = some ⟨copyId, B⟩
    ∧ ∀ r, extractPcmFromSfuPacket ⟨frameId, (encodePcmForSfu B 0).data⟩ copyId
        = some r → copyId ≠ frameId → r.id ≠ frameId := by
  have hmain : extractPcmFromSfuPacket ⟨frameId, (encodePcmForSfu B 0).data⟩ copyId
      = some ⟨copyId, B⟩ := by
    by_cases hBnil : B = []
    · subst hBnil
      simp [extractPcmFromSfuPacket, encodePcmForSfu, packetToBinary,
        packetFromBinary, readFields]
    · have hlen : B.length ≠ 0 := by
        simpa using fun h => hBnil (List.eq_nil_of_length_eq_zero h)
      have hdata : (encodePcmForSfu B 0).data
          = 42 :: (varintEncode B.length ++ B) := by
        simp [encodePcmForSfu, packetToBinary, hlen]
      have hparse : packetFromBinary (42 :: (varintEncode B.length ++ B))
          = some ⟨0, 0, B⟩ := by
        unfold packetFromBinary
        simp only [List.length_cons]
        exact readFields_payload_frame ⟨0, 0, []⟩ B
      simp [extractPcmFromSfuPacket, hdata, hparse, hB]
  exact ⟨hmain, by
    intro r hr hne
    rw [hmain] at hr
    cases hr
    simpa using hne⟩

/-- C3 witness: the round trip at the concrete even-length buffer
`[1, 2]`. -/
theorem extractPcm_encodePcm_roundtrip_witness :
    ([1, 2] : List Nat).length % 2 = 0
    ∧ extractPcmFromSfuPacket ⟨7, (encodePcmForSfu [1, 2] 0).data⟩ 9
        = some ⟨9, [1, 2]⟩ :=
  ⟨by decide, (extractPcm_encodePcm_roundtrip [1, 2] 7 9 (by decide)).1⟩

end PacketCodec

namespace TTSStream

open Audio

theorem sliceChunksFuel_flatten (fuel : Nat) (xs : List Int)
    (h : xs.length ≤ fuel) : (sliceChunksFuel fuel xs).flatten = xs := by
  induction fuel generalizing xs with
  | zero =>
    cases xs with
    | nil => rfl
    | cons x rest => simp at h
  | succ fuel ih =>
    cases xs with
    | nil => rfl
    | cons x rest =>
      have hlen : (List.drop TTS_BUFFER_CHUNK_SAMPLES (x :: rest)).length ≤ fuel := by
        simp only [List.length_drop, List.length_cons, TTS_BUFFER_CHUNK_SAMPLES]
        simp at h
        omega
      simp only [sliceChunksFuel, List.flatten_cons, ih _ hlen, List.take_append_drop]

theorem sliceChunks_flatten (xs : List Int) : (sliceChunks xs).flatten = xs :=
  sliceChunksFuel_flatten xs.length xs (Nat.le_refl _)

theorem sliceChunksFuel_bound (fuel : Nat) (xs : List Int) :
    ∀ p ∈ sliceChunksFuel fuel xs, p.length ≤ TTS_BUFFER_CHUNK_SAMPLES := by
  induction fuel generalizing xs with
  | zero => cases xs <;> simp [sliceChunksFuel]
  | succ fuel ih =>
    cases xs with
    | nil => simp [sliceChunksFuel]
    | cons x rest =>
      intro p hp
      simp only [sliceChunksFuel, List.mem_cons] at hp
      rcases hp with hp | hp
      · subst hp
        exact List.length_take_le TTS_BUFFER_CHUNK_SAMPLES (x :: rest)
      · exact ih _ p hp

theorem combineChunks_eq_flatten (chunks : List (List Int)) :
    combineChunks chunks = chunks.flatten := by
  unfold combineChunks
  suffices h : ∀ acc : List Int,
      chunks.foldl (fun acc c => acc ++ c) acc = acc ++ chunks.flatten by
    simpa using h []
  induction chunks with
  | nil => intro acc; simp
  | cons c cs ih => intro acc; simp [ih, List.append_assoc]

theorem processForTTS_nil : processForTTS [] = [] := rfl

end TTSStream

/-! ## Claim theorems
One theorem per specification claim, with witnesses for the theorems that
carry hypotheses and counterexamples where the claim fails on the code. -/

namespace StateStoreM

theorem rescheduleAlarm_fields (st : Store) :
    (rescheduleAlarm st).fields = st.fields := by
  unfold rescheduleAlarm buildDeadlineAggregator
  cases h : (st.fields.filterMap id).filter (fun d => 0 < d) <;> simp [h]

/-- C2: after every StateStore `update` or `deleteKeys` call that does not
pass `skipAlarmReschedule = true`, the alarm stored in the durable store
equals the minimum of the deadline fields that are defined (and positive) in
the resulting state, and the alarm is deleted when no such deadline exists
(`min?` of the empty list is `none`); `minDefinedPositive` is shown to be
genuinely that minimum. -/
theorem alarm_equals_min_deadline (st : Store)
    (updates : List (Option (Option Int))) (keys : List Bool) :
    ((update st updates false).alarm
        = minDefinedPositive (update st updates false).fields)
    ∧ ((deleteKeys st keys false).alarm
        = minDefinedPositive (deleteKeys st keys false).fields)
    ∧ (∀ fs : List (Option Int),
        (minDefinedPositive fs = none ↔
          (fs.filterMap id).filter (fun d => 0 < d) = [])
        ∧ (∀ a : Int, minDefinedPositive fs = some a ↔
            a ∈ (fs.filterMap id).filter (fun d => 0 < d)
            ∧ ∀ b ∈ (fs.filterMap id).filter (fun d => 0 < d), a ≤ b)) := by
  refine ⟨?_, ?_, ?_⟩
  · have h1 : update st updates false
        = rescheduleAlarm { st with fields := mergeFields st.fields updates } := rfl
    rw [h1, rescheduleAlarm_eq_minDefinedPositive, rescheduleAlarm_fields]
  · have h1 : deleteKeys st keys false
        = rescheduleAlarm { st with fields := deleteKeysFields st.fields keys } := rfl
    rw [h1, rescheduleAlarm_eq_minDefinedPositive, rescheduleAlarm_fields]
  · intro fs
    constructor
    · unfold minDefinedPositive
      exact List.min?_eq_none_iff
    · intro a
      unfold minDefinedPositive
      haveI : Std.Antisymm (fun (a b : Int) => a ≤ b) :=
        ⟨fun h1 h2 => le_antisymm h1 h2⟩
      rw [List.min?_eq_some_iff (fun a => le_refl a) (fun a b => min_choice a b)
        (fun a b c => le_min_iff)]

end StateStoreM

namespace Reconnect

/-- C5: with `allowReconnect` set and `reconnectAttempts = a`,
`scheduleReconnect` leaves the state unchanged once `a + 1` exceeds the
attempt cap 5; otherwise it sets `reconnectAttempts` to `a + 1` and writes
`reconnectDeadline = now + min(1000 * 2^a, 30000)`, except that an existing
deadline already within 250 ms of (or earlier than) that target is kept. -/
theorem scheduleReconnect_backoff (s : ReconnectState) (now : Nat) (ty : String)
    (h : s.allowReconnect = true) :
    (s.reconnectAttempts + 1 > 5 → scheduleReconnect s now ty 5 30000 = s)
    ∧ (s.reconnectAttempts + 1 ≤ 5 →
        (scheduleReconnect s now ty 5 30000).reconnectAttempts
            = s.reconnectAttempts + 1
        ∧ (s.reconnectDeadline = none →
            (scheduleReconnect s now ty 5 30000).reconnectDeadline
              = some (now + min (1000 * 2 ^ s.reconnectAttempts) 30000))
        ∧ (∀ cur, s.reconnectDeadline = some cur →
            (cur ≤ now + min (1000 * 2 ^ s.reconnectAttempts) 30000 + 250 →
              (scheduleReconnect s now ty 5 30000).reconnectDeadline = some cur)
            ∧ (cur > now + min (1000 * 2 ^ s.reconnectAttempts) 30000 + 250 →
              (scheduleReconnect s now ty 5 30000).reconnectDeadline
                = some (now + min (1000 * 2 ^ s.reconnectAttempts) 30000)))) := by
  unfold scheduleReconnect
  simp only [h, Bool.not_true, Bool.false_eq_true, if_false]
  constructor
  · intro hgt
    simp [hgt]
  · intro hle
    have hngt : ¬(s.reconnectAttempts + 1 > 5) := by omega
    refine ⟨?_, ?_, ?_⟩
    · simp [hngt]
    · intro hnone
      simp [hngt, hnone]
    · intro cur hcur
      constructor
      · intro hchurn
        have hno : ¬(cur > now + min (1000 * 2 ^ s.reconnectAttempts) 30000 + 250) := by
          omega
        simp [hngt, hcur, hno]
      · intro hfar
        simp [hngt, hcur, hfar]

/-- C5 witness: from two previous attempts (`a = 2`) and an existing far-away
deadline, `scheduleReconnect` moves the deadline to `now + 4000`. -/
theorem scheduleReconnect_backoff_witness :
    (scheduleReconnect ⟨true, 2, none, some 100000⟩ 0 "nova-stt-websocket" 5 30000).reconnectAttempts
        = 2 + 1
    ∧ (scheduleReconnect ⟨true, 2, none, some 100000⟩ 0 "nova-stt-websocket" 5 30000).reconnectDeadline
        = some (0 + min (1000 * 2 ^ 2) 30000) :=
  have h := scheduleReconnect_backoff ⟨true, 2, none, some 100000⟩ 0 "nova-stt-websocket" rfl
  ⟨(h.2 (by decide)).1,
    ((h.2 (by decide)).2.2 100000 rfl).2 (by decide)⟩

end Reconnect

namespace Inactivity

/-- C6 counterexample: the STT inactivity scheduler does replace an
already-set deadline with an earlier instant: with no clients, an existing
deadline at 600000 and the 30-second debug grace requested at `now = 0`, the
deadline is rewritten to 30000, which is earlier. -/
theorem inactivity_monotonic_counterexample :
    sttScheduleInactivityIfIdle false (some 600000) 0 30000 = some 30000
    ∧ (30000 : Int) < 600000 := by
  constructor
  · rfl
  · decide

/-- C6 amended: the TTS scheduler (`scheduleInactivity`) never moves an
existing `inactivityDeadline` earlier; the STT scheduler
(`scheduleInactivityIfIdle`) is earliest-wins — it never moves an existing
deadline later, and it replaces it with the earlier target exactly when the
target is more than 250 ms earlier than the existing deadline. -/
theorem inactivity_schedulers_amended :
    (∀ now ms existing : Int,
        ∃ e, ttsScheduleInactivity (some existing) now ms = some e ∧ existing ≤ e)
    ∧ (∀ (anyone : Bool) (now g existing : Int),
        ∃ e, sttScheduleInactivityIfIdle anyone (some existing) now g = some e
          ∧ e ≤ existing)
    ∧ (∀ now g existing : Int, now + g + 250 < existing →
        sttScheduleInactivityIfIdle false (some existing) now g = some (now + g)) := by
  refine ⟨?_, ?_, ?_⟩
  · intro now ms existing
    unfold ttsScheduleInactivity
    by_cases hg : (max existing (now + ms) - existing).natAbs < 1000
    · exact ⟨existing, by simp [hg], le_refl _⟩
    · exact ⟨max existing (now + ms), by simp [hg], le_max_left _ _⟩
  · intro anyone now g existing
    unfold sttScheduleInactivityIfIdle
    cases anyone with
    | true => exact ⟨existing, by simp, le_refl _⟩
    | false =>
      by_cases hg : existing ≤ now + g + 250
      · exact ⟨existing, by simp [hg], le_refl _⟩
      · exact ⟨now + g, by simp [hg], by omega⟩
  · intro now g existing hfar
    unfold sttScheduleInactivityIfIdle
    have : ¬(existing ≤ now + g + 250) := by omega
    simp [this]

/-- C6 witness for the amended claim: the earliest-wins overwrite at the
counterexample's input. -/
theorem inactivity_schedulers_amended_witness :
    sttScheduleInactivityIfIdle false (some 600000) 0 30000 = some (0 + 30000) :=
  inactivity_schedulers_amended.2.2 0 30000 600000 (by decide)

end Inactivity

namespace STTQueue

/-- C7: after every completed enqueue the queued byte counter equals the sum
of the lengths of the buffers in the queue and is at most
`STT_MAX_QUEUE_BYTES` (2 MiB); overflow is resolved by dropping whole
buffers from the head, so the new queue is a suffix of the old queue with
the new buffer appended (and an empty enqueue is a no-op). -/
theorem enqueue_bounded_sum_suffix (q : Queue) (buf : List Nat)
    (hwf : q.sttQueuedBytes = sumBytes q.sttSendQueue)
    (hle : q.sttQueuedBytes ≤ STT_MAX_QUEUE_BYTES) :
    ((enqueueAudioForSTT q buf).sttQueuedBytes
        = sumBytes (enqueueAudioForSTT q buf).sttSendQueue)
    ∧ (enqueueAudioForSTT q buf).sttQueuedBytes ≤ STT_MAX_QUEUE_BYTES
    ∧ (buf.length ≠ 0 → ∃ k, (enqueueAudioForSTT q buf).sttSendQueue
        = (q.sttSendQueue ++ [buf]).drop k)
    ∧ (buf.length = 0 → enqueueAudioForSTT q buf = q) := by
  by_cases hz : buf.length = 0
  · refine ⟨?_, ?_, fun hne => absurd hz hne, fun _ => by simp [enqueueAudioForSTT, hz]⟩
    · simp [enqueueAudioForSTT, hz, hwf]
    · simp [enqueueAudioForSTT, hz, hle]
  · have hwf1 : q.sttQueuedBytes + buf.length = sumBytes (q.sttSendQueue ++ [buf]) := by
      rw [STTDrain.sumBytes_append, hwf]
      simp [sumBytes]
    have he : enqueueAudioForSTT q buf
        = ⟨(dropOldest (q.sttSendQueue ++ [buf]) (q.sttQueuedBytes + buf.length)).1,
           (dropOldest (q.sttSendQueue ++ [buf]) (q.sttQueuedBytes + buf.length)).2⟩ := by
      simp [enqueueAudioForSTT, hz]
    refine ⟨?_, ?_, ?_, fun h0 => absurd h0 hz⟩
    · rw [he]
      exact dropOldest_sum _ _ hwf1
    · rw [he]
      exact dropOldest_le _ _ hwf1
    · intro _
      rw [he]
      exact dropOldest_suffix _ _

/-- C7 witness: enqueueing a two-byte buffer onto a well-formed one-buffer
queue. -/
theorem enqueue_bounded_sum_suffix_witness :
    ((⟨[[1]], 1⟩ : Queue).sttQueuedBytes = sumBytes [[1]]
      ∧ (⟨[[1]], 1⟩ : Queue).sttQueuedBytes ≤ STT_MAX_QUEUE_BYTES)
    ∧ (enqueueAudioForSTT ⟨[[1]], 1⟩ [2, 3]).sttQueuedBytes
        = sumBytes (enqueueAudioForSTT ⟨[[1]], 1⟩ [2, 3]).sttSendQueue
    ∧ (enqueueAudioForSTT ⟨[[1]], 1⟩ [2, 3]).sttQueuedBytes ≤ STT_MAX_QUEUE_BYTES :=
  have h := enqueue_bounded_sum_suffix ⟨[[1]], 1⟩ [2, 3] (by decide) (by decide)
  ⟨⟨by decide, by decide⟩, h.1, h.2.1⟩

end STTQueue

namespace Audio

/-- C10: duplicating each PCM16 mono sample into both stereo channels and
then averaging the channels with rounding returns the original buffer:
`stereoToMono (monoToStereo B) = B` for every in-range sample buffer. -/
theorem stereoToMono_monoToStereo (B : List Int)
    (h : ∀ s ∈ B, -32768 ≤ s ∧ s < 32768) :
    stereoToMono (monoToStereo B) = B := by
  induction B with
  | nil => rfl
  | cons s rest ih =>
    have hs := h s (List.mem_cons_self s rest)
    have h16 : toInt16 s = s := toInt16_of_range hs.1 hs.2
    show stereoToMono (toInt16 s :: toInt16 s :: monoToStereo rest) = s :: rest
    rw [h16]
    show toInt16 (jsAverageRound s s) :: stereoToMono (monoToStereo rest) = s :: rest
    rw [jsAverageRound_self, h16,
      ih (fun x hx => h x (List.mem_cons_of_mem s hx))]

/-- C10 witness: the round trip at the concrete buffer `[100, -200]`. -/
theorem stereoToMono_monoToStereo_witness :
    (∀ s ∈ ([100, -200] : List Int), -32768 ≤ s ∧ s < 32768)
    ∧ stereoToMono (monoToStereo [100, -200]) = [100, -200] :=
  ⟨by decide, stereoToMono_monoToStereo [100, -200] (by decide)⟩

end Audio

namespace TTSStream

open Audio

theorem streamChunkPayloads_flatten (c : List Int) :
    (streamChunkPayloads c).flatten = processForTTS c := by
  unfold streamChunkPayloads
  by_cases hlen : c.length = 0
  · have hc : c = [] := List.eq_nil_of_length_eq_zero hlen
    subst hc
    simp [processForTTS_nil]
  · simp [hlen, sliceChunks_flatten]

/-- C8 counterexample: with the upstream chunks `[16, 32]` and `[48, 64]`
(the spec's scenario S1) followed by `Flushed`, the concatenation of the
payloads streamed to a connected subscriber does not equal the stereo-48k
expansion of the concatenated chunks, and hence differs from the retained
late-joiner buffer (which does equal that expansion): linear interpolation
duplicates the last sample at each chunk boundary instead of interpolating
across it. -/
theorem tts_streaming_counterexample :
    (streamedPayloads [[16, 32], [48, 64]]).flatten
        ≠ processForTTS ([16, 32] ++ [48, 64])
    ∧ lateJoinerBuffer [[16, 32], [48, 64]]
        = processForTTS ([16, 32] ++ [48, 64])
    ∧ (streamedPayloads [[16, 32], [48, 64]]).flatten
        ≠ lateJoinerBuffer [[16, 32], [48, 64]] := by
  refine ⟨?_, ?_, ?_⟩ <;> decide

/-- C8 amended: the payloads streamed to an already-connected subscriber
concatenate to the concatenation of the per-chunk stereo-48k expansions of
the chunks (which equals the expansion of the concatenation only in special
cases, e.g. a single chunk); the retained late-joiner buffer equals the
stereo-48k expansion of the concatenation of the chunks; and a subsequently
connecting subscriber receives exactly the retained buffer, in payloads of
at most 16 KiB (8192 samples), followed by a zero-length end-of-stream
packet. -/
theorem tts_streaming_amended (chunks : List (List Int)) :
    (streamedPayloads chunks).flatten = (chunks.map processForTTS).flatten
    ∧ lateJoinerBuffer chunks = processForTTS chunks.flatten
    ∧ (∃ ps, sendBufferInChunks (lateJoinerBuffer chunks) = ps ++ [[]]
        ∧ ps.flatten = lateJoinerBuffer chunks
        ∧ ∀ p ∈ ps, p.length ≤ TTS_BUFFER_CHUNK_SAMPLES)
    ∧ (∀ c : List Int, (streamedPayloads [c]).flatten = lateJoinerBuffer [c]) := by
  refine ⟨?_, ?_, ?_, ?_⟩
  · induction chunks with
    | nil => rfl
    | cons c cs ih =>
      simp only [streamedPayloads, List.map_cons, List.flatten_cons,
        List.flatten_append] at ih ⊢
      rw [streamChunkPayloads_flatten, ih]
  · unfold lateJoinerBuffer
    rw [combineChunks_eq_flatten]
  · refine ⟨sliceChunks (lateJoinerBuffer chunks), rfl, sliceChunks_flatten _, ?_⟩
    exact sliceChunksFuel_bound _ _
  · intro c
    have h1 : streamedPayloads [c] = streamChunkPayloads c := by
      simp [streamedPayloads]
    have h2 : combineChunks [c] = c := by
      rw [combineChunks_eq_flatten]
      simp
    rw [h1, streamChunkPayloads_flatten]
    unfold lateJoinerBuffer
    rw [h2]

end TTSStream

namespace Transcripts

/-- C9: the late-joiner transcription buffer is documented (in the spec and
in the code's own comment) to retain at most the last 100 transcriptions,
but the maintenance code shifts only when the length already exceeds 100, so
after 101 emitted transcriptions (the failing input) the buffer holds 101
entries; the replay to a newly accepted transcription-stream client is
exactly the buffer contents. -/
theorem broadcastIter_length (n : Nat) : (broadcastIter n).length = min n 101 := by
  induction n with
  | zero => rfl
  | succ n ih =>
    have hstep : broadcastIter (n + 1) = broadcastPush (broadcastIter n) n := by
      unfold broadcastIter
      rw [List.range_succ, List.foldl_append]
      rfl
    rw [hstep]
    unfold broadcastPush
    simp only [List.length_append, List.length_cons, List.length_nil]
    by_cases hgt : (broadcastIter n).length > 100
    · simp only [hgt, if_true, List.length_drop]
      omega
    · simp only [hgt, if_false]
      omega

theorem transcription_ring_overflow :
    (broadcastIter 101).length = 101
    ∧ ¬((broadcastIter 101).length ≤ 100)
    ∧ replayOnAccept (broadcastIter 101) = broadcastIter 101 := by
  have h := broadcastIter_length 101
  have hre : ∀ b : List Nat, replayOnAccept b = b := fun b => rfl
  refine ⟨?_, ?_, hre _⟩ <;> omega

end Transcripts

namespace CloseOps

/-- C4 counterexample: two successive TTS `unpublish` calls do not yield the
same 2xx status: from a published state (with the SFU succeeding) the first
call returns 200 and the second returns 400, which is not a 2xx. -/
theorem unpublish_not_2xx_idempotent :
    (handleUnpublish
        ⟨true, 0, none, none, some 1000, none, some "sess", some "adapter",
          some "zeus", none⟩
        SfuCloseResult.ok).1 = 200
    ∧ (handleUnpublish
        (handleUnpublish
          ⟨true, 0, none, none, some 1000, none, some "sess", some "adapter",
            some "zeus", none⟩
          SfuCloseResult.ok).2
        SfuCloseResult.ok).1 = 400
    ∧ ¬(200 ≤ 400 ∧ 400 < 300) := by
  refine ⟨by decide, by decide, by decide⟩

theorem handleStopForwarding_adapter_cleared (s : STTState) (sfu : SfuCloseResult)
    (nc ah : Bool) (now : Int)
    (h200 : (handleStopForwarding s sfu nc ah now).1 = 200) :
    (handleStopForwarding s sfu nc ah now).2.sfuAdapterId = none := by
  unfold handleStopForwarding at h200 ⊢
  cases ha : s.sfuAdapterId with
  | none => exact ha
  | some x =>
    cases sfu with
    | fail st => simp [ha] at h200
    | ok =>
      dsimp only
      split <;> split <;> rfl
    | alreadyClosed =>
      dsimp only
      split <;> split <;> rfl

theorem handleStopForwarding_noop (s : STTState) (sfu : SfuCloseResult)
    (nc ah : Bool) (now : Int) (h : s.sfuAdapterId = none) :
    handleStopForwarding s sfu nc ah now = (200, s) := by
  unfold handleStopForwarding
  rw [h]

theorem videoStopForwarding_noop (s : VideoState) (sfu : SfuCloseResult)
    (h : s.sfuAdapterId = none) : videoStopForwarding s sfu = (200, s) := by
  unfold videoStopForwarding
  rw [h]

theorem handleUnpublish_notPublished (s : TTSState) (sfu : SfuCloseResult)
    (h : s.adapterId = none) : handleUnpublish s sfu = (400, s) := by
  unfold handleUnpublish
  rw [h]

/-- C4 amended: two successive `stop-forwarding` calls (STT, and the
spec-modelled Video variant) yield the same 200 status whenever the first
succeeds, and the second call leaves all state unchanged; for TTS, a
successful `unpublish` returns 200 but the second call returns 400 (not a
2xx), likewise leaving the state unchanged. -/
theorem close_idempotence_amended :
    (∀ (s : STTState) (sfu : SfuCloseResult) (nc ah : Bool) (now : Int)
        (sfu2 : SfuCloseResult) (nc2 ah2 : Bool) (now2 : Int),
        (handleStopForwarding s sfu nc ah now).1 = 200 →
        handleStopForwarding (handleStopForwarding s sfu nc ah now).2 sfu2 nc2 ah2 now2
          = (200, (handleStopForwarding s sfu nc ah now).2))
    ∧ (∀ (s : VideoState) (sfu sfu2 : SfuCloseResult),
        (videoStopForwarding s sfu).1 = 200 →
        videoStopForwarding (videoStopForwarding s sfu).2 sfu2
          = (200, (videoStopForwarding s sfu).2))
    ∧ (∀ (s : TTSState) (a : String), s.adapterId = some a →
        (handleUnpublish s SfuCloseResult.ok).1 = 200
        ∧ ∀ sfu2 : SfuCloseResult,
            handleUnpublish (handleUnpublish s SfuCloseResult.ok).2 sfu2
              = (400, (handleUnpublish s SfuCloseResult.ok).2)) := by
  refine ⟨?_, ?_, ?_⟩
  · intro s sfu nc ah now sfu2 nc2 ah2 now2 h200
    exact handleStopForwarding_noop _ _ _ _ _
      (handleStopForwarding_adapter_cleared s sfu nc ah now h200)
  · intro s sfu sfu2 h200
    have hnone : (videoStopForwarding s sfu).2.sfuAdapterId = none := by
      unfold videoStopForwarding at h200 ⊢
      cases ha : s.sfuAdapterId with
      | none => exact ha
      | some x =>
        cases sfu with
        | fail st => simp [ha] at h200
        | ok => rfl
        | alreadyClosed => rfl
    exact videoStopForwarding_noop _ _ hnone
  · intro s a ha
    constructor
    · unfold handleUnpublish
      rw [ha]
    · intro sfu2
      have h2 : (handleUnpublish s SfuCloseResult.ok).2.adapterId = none := by
        unfold handleUnpublish
        rw [ha]
      exact handleUnpublish_notPublished _ _ h2

/-- C4 witness for the amended claim: the STT part at a concrete connected
state, the SFU succeeding both times. -/
theorem close_idempotence_amended_witness :
    handleStopForwarding
        (handleStopForwarding ⟨some "sid", some "aid", false, false, none, none⟩
          SfuCloseResult.ok true false 0).2
        SfuCloseResult.ok true false 0
      = (200, (handleStopForwarding ⟨some "sid", some "aid", false, false, none, none⟩
          SfuCloseResult.ok true false 0).2) :=
  close_idempotence_amended.1 ⟨some "sid", some "aid", false, false, none, none⟩
    SfuCloseResult.ok true false 0 SfuCloseResult.ok true false 0 (by decide)

end CloseOps

namespace StateStoreM

/-- C2 witness: the alarm after a concrete `update` on a two-field store. -/
theorem alarm_equals_min_deadline_witness :
    (update ⟨[some 5, none], none⟩ [some (some 3)] false).alarm
        = minDefinedPositive (update ⟨[some 5, none], none⟩ [some (some 3)] false).fields
    ∧ (update ⟨[some 5, none], none⟩ [some (some 3)] false).alarm = some 3 :=
  ⟨(alarm_equals_min_deadline ⟨[some 5, none], none⟩ [some (some 3)] []).1, by decide⟩

end StateStoreM

namespace TTSStream

open Audio

/-- C8 witness for the amended claim: the streamed payloads of a single run
at a concrete chunk list. -/
theorem tts_streaming_amended_witness :
    (streamedPayloads [[16, 32], [48, 64]]).flatten
        = (([[16, 32], [48, 64]] : List (List Int)).map processForTTS).flatten :=
  (tts_streaming_amended [[16, 32], [48, 64]]).1

end TTSStream
